import Mathlib

/-!
Verification development for the HIP BabelStream kernel suite
(src/src/hip/HIPStream.cpp).

Device arrays are modelled as total functions from indices to an element
type carrying a semiring structure (the concrete program instantiates the
element type at float and double; the properties below hold over exact
arithmetic, as the specification allows).

Every HIP kernel in the source follows the same grid-stride pattern: the
grid has some number of blocks of TBSIZE = 1024 threads each; the thread
with global id g = blockDim.x * blockIdx.x + threadIdx.x processes indices
g, g + total, g + 2*total, ... below array_size, where
total = gridDim.x * blockDim.x is the total worker count.  Within one
elementwise kernel all threads write pairwise disjoint index sets, so the
parallel execution is modelled as running the threads' loops one after the
other; the characterization lemmas below recover the per-index result.
-/

set_option maxRecDepth 8000

namespace BabelStream

/-- Workgroup size, TBSIZE in the source (#define TBSIZE 1024). -/
def TBSIZE : Nat := 1024

/-- ceil_div from the source: (a + b - 1) / b. -/
def ceil_div (a b : Nat) : Nat := (a + b - 1) / b

/-- Pointwise update of a device array at one index. -/
def upd {α : Type} (x : Nat → α) (i : Nat) (v : α) : Nat → α :=
  fun j => if j = i then v else x j

/-- One worker's grid-stride loop, transcribed from the kernel bodies:
starting at index i, while i < n the worker stores G i (x i) at index i and
advances by total.  G captures the kernel body's right-hand side; its second
argument is the current value at index i, used only by nstream
(a[i] += b[i] + scalar * c[i]).  The fuel argument bounds the iteration
count structurally; fuel = n always suffices when total >= 1. -/
def gridStrideLoop {α : Type} (G : Nat → α → α) (n total : Nat) :
    Nat → Nat → (Nat → α) → (Nat → α)
  | 0, _, x => x
  | fuel + 1, i, x =>
    if i < n then gridStrideLoop G n total fuel (i + total) (upd x i (G i (x i)))
    else x

/-- Sequentialized execution of the grid: threads with global ids
0, 1, ..., t-1 each run their grid-stride loop (thread g starts at index g).
Elementwise kernels write pairwise disjoint index sets, so any execution
order yields this result. -/
def launchAux {α : Type} (G : Nat → α → α) (n total : Nat) :
    Nat → (Nat → α) → (Nat → α)
  | 0, x => x
  | t + 1, x => gridStrideLoop G n total n t (launchAux G n total t x)

/-- A full kernel launch over a grid of total workers. -/
def launch {α : Type} (G : Nat → α → α) (n total : Nat) (x : Nat → α) : Nat → α :=
  launchAux G n total total x

/-- State of one HIPStream instance's three device buffers d_a, d_b, d_c. -/
structure StreamState (α : Type) where
  a : Nat → α
  b : Nat → α
  c : Nat → α

/-- Total worker count of an elementwise launch for array size n:
blocks * TBSIZE with blocks = ceil_div n TBSIZE, as in every
HIPStream<T> member that dispatches dim3(blocks), dim3(TBSIZE). -/
def gridWorkers (n : Nat) : Nat := ceil_div n TBSIZE * TBSIZE

/-- init_kernel: a[i] = initA; b[i] = initB; c[i] = initC along the
grid-stride loop.  The three same-index stores of one iteration are
modelled as one store into the array of triples (a i, b i, c i). -/
def init_kernel {α : Type} (initA initB initC : α) (n total : Nat)
    (abc : Nat → α × α × α) : Nat → α × α × α :=
  launch (fun _ _ => (initA, initB, initC)) n total abc

/-- HIPStream::init_arrays: launch init_kernel over ceil_div n TBSIZE blocks. -/
def stream_init {α : Type} (n : Nat) (initA initB initC : α)
    (s : StreamState α) : StreamState α :=
  let abc := init_kernel initA initB initC n (gridWorkers n)
    (fun i => (s.a i, s.b i, s.c i))
  ⟨fun i => (abc i).1, fun i => (abc i).2.1, fun i => (abc i).2.2⟩

/-- copy_kernel: c[i] = a[i]; a is read-only (const T *). -/
def copy_kernel {α : Type} (a : Nat → α) (n total : Nat) (c : Nat → α) : Nat → α :=
  launch (fun i _ => a i) n total c

/-- HIPStream::copy. -/
def stream_copy {α : Type} (n : Nat) (s : StreamState α) : StreamState α :=
  { s with c := copy_kernel s.a n (gridWorkers n) s.c }

/-- mul_kernel: b[i] = scalar * c[i]; c is read-only.  The scalar is the
startScalar constant of the driver header, passed here as a parameter. -/
def mul_kernel {α : Type} [Semiring α] (scalar : α) (c : Nat → α)
    (n total : Nat) (b : Nat → α) : Nat → α :=
  launch (fun i _ => scalar * c i) n total b

/-- HIPStream::mul. -/
def stream_mul {α : Type} [Semiring α] (scalar : α) (n : Nat)
    (s : StreamState α) : StreamState α :=
  { s with b := mul_kernel scalar s.c n (gridWorkers n) s.b }

/-- add_kernel: c[i] = a[i] + b[i]; a and b are read-only. -/
def add_kernel {α : Type} [Semiring α] (a b : Nat → α) (n total : Nat)
    (c : Nat → α) : Nat → α :=
  launch (fun i _ => a i + b i) n total c

/-- HIPStream::add. -/
def stream_add {α : Type} [Semiring α] (n : Nat) (s : StreamState α) :
    StreamState α :=
  { s with c := add_kernel s.a s.b n (gridWorkers n) s.c }

/-- triad_kernel: a[i] = b[i] + scalar * c[i]; b and c are read-only. -/
def triad_kernel {α : Type} [Semiring α] (scalar : α) (b c : Nat → α)
    (n total : Nat) (a : Nat → α) : Nat → α :=
  launch (fun i _ => b i + scalar * c i) n total a

/-- HIPStream::triad. -/
def stream_triad {α : Type} [Semiring α] (scalar : α) (n : Nat)
    (s : StreamState α) : StreamState α :=
  { s with a := triad_kernel scalar s.b s.c n (gridWorkers n) s.a }

/-- nstream_kernel: a[i] += b[i] + scalar * c[i]; b and c are read-only,
a is read at the same index it writes. -/
def nstream_kernel {α : Type} [Semiring α] (scalar : α) (b c : Nat → α)
    (n total : Nat) (a : Nat → α) : Nat → α :=
  launch (fun i v => v + (b i + scalar * c i)) n total a

/-- HIPStream::nstream. -/
def stream_nstream {α : Type} [Semiring α] (scalar : α) (n : Nat)
    (s : StreamState α) : StreamState α :=
  { s with a := nstream_kernel scalar s.b s.c n (gridWorkers n) s.a }

/-! ## Dot product

dot_kernel gives each thread one slot of a shared accumulator array
tb_sum of length TBSIZE.  The slot starts at the additive identity
(tb_sum[local_i] = {}), the thread adds a[i]*b[i] along its grid-stride
indices, the block tree-reduces tb_sum into slot 0 with a halving offset
and a __syncthreads barrier before each step, and thread 0 writes slot 0 to
sum[blockIdx.x].  The host then adds the dot_num_blocks block results in
index order. -/

/-- One thread's accumulation phase: starting from acc (the slot value,
initially the additive identity) add f i for i = start, start+total, ...
below n.  f stands for fun i => a i * b i. -/
def threadAccum {α : Type} [Semiring α] (f : Nat → α) (n total : Nat) :
    Nat → Nat → α → α
  | 0, _, acc => acc
  | fuel + 1, i, acc =>
    if i < n then threadAccum f n total fuel (i + total) (acc + f i) else acc

/-- The shared tb_sum array of one block after the accumulation phase:
slot local_i holds the strided sum started at
blockDim.x * blockIdx.x + local_i with stride blockDim.x * gridDim.x. -/
def blockSlots {α : Type} [Semiring α] (a b : Nat → α)
    (n numBlocks blockIdx : Nat) : Nat → α :=
  fun local_i =>
    threadAccum (fun i => a i * b i) n (TBSIZE * numBlocks) n
      (TBSIZE * blockIdx + local_i) 0

/-- One synchronized step of the tree reduction: after the barrier, every
thread with local_i < offset adds slot local_i + offset into slot local_i. -/
def reduceStep {α : Type} [Semiring α] (t : Nat → α) (offset : Nat) : Nat → α :=
  fun j => if j < offset then t j + t (j + offset) else t j

/-- The reduction loop: for (offset = blockDim.x / 2; offset > 0; offset /= 2)
apply reduceStep.  Fuel bounds the iteration count structurally; fuel =
TBSIZE / 2 is ample since the offset halves every step. -/
def treeReduce {α : Type} [Semiring α] : Nat → Nat → (Nat → α) → (Nat → α)
  | 0, _, t => t
  | fuel + 1, offset, t =>
    if 0 < offset then treeReduce fuel (offset / 2) (reduceStep t offset) else t

/-- The value dot_kernel leaves in sum[blockIdx]: slot 0 of the fully
reduced tb_sum array (written by the thread with local_i == 0). -/
def dotBlockResult {α : Type} [Semiring α] (a b : Nat → α)
    (n numBlocks blockIdx : Nat) : α :=
  treeReduce (TBSIZE / 2) (TBSIZE / 2) (blockSlots a b n numBlocks blockIdx) 0

/-- The host loop of HIPStream::dot: T sum{}; for i < dot_num_blocks:
sum += sums[i]. -/
def dotHostSum {α : Type} [Semiring α] (p : Nat → α) : Nat → α
  | 0 => 0
  | k + 1 => dotHostSum p k + p k

/-- HIPStream::dot: launch dot_kernel over dot_num_blocks blocks of TBSIZE
threads, then sum the per-block results on the host. -/
def stream_dot {α : Type} [Semiring α] (n numBlocks : Nat) (a b : Nat → α) : α :=
  dotHostSum (fun blk => dotBlockResult a b n numBlocks blk) numBlocks

/-! ## Host readback (HIPStream::read_arrays)

Under the DEFAULT build (device-only residency) each host vector is filled
by hipMemcpy of a.size() * sizeof(T) bytes from the device buffer.  Under
MANAGED or PAGEFAULT builds a host loop copies exactly array_size elements
through the shared mapping, regardless of the vectors' lengths.  Host
buffers are modelled as raw memory (total functions), matching the raw
pointer writes of the source. -/

/-- DEFAULT branch for one vector: hipMemcpy(v.data(), d, v.size()*sizeof(T),
hipMemcpyDeviceToHost) overwrites exactly the first hostLen = v.size()
elements of the host buffer with the device contents. -/
def read_vec_default {α : Type} (d : Nat → α) (hostLen : Nat)
    (host : Nat → α) : Nat → α :=
  fun i => if i < hostLen then d i else host i

/-- MANAGED / PAGEFAULT branch for one vector: the loop
for (i = 0; i < array_size; i++) v[i] = d[i], written here by recursion on
the trip count. -/
def read_vec_managed {α : Type} (d : Nat → α) : Nat → (Nat → α) → (Nat → α)
  | 0, host => host
  | m + 1, host => upd (read_vec_managed d m host) m (d m)

/-! ## Construction (HIPStream::HIPStream)

The constructor is modelled as the sequence of checks and allocations it
performs, tracking which buffers have been allocated when an error path is
taken.  External runtime calls are represented by their observable result:
hipGetDeviceCount yields count; hipSetDevice succeeds exactly on an index
the runtime enumerates (0 <= idx < count), and any non-success status makes
check_error surface the error and terminate the process, the spec's
DeviceOperationFailed channel.  hipHostMalloc and the array allocations are
modelled as succeeding (their failure would also surface as
DeviceOperationFailed, never as one of the two construction exceptions).
size_t arithmetic wraps modulo 2^64. -/

/-- The four buffers a HIPStream instance owns. -/
inductive Buf
  | sums
  | a
  | b
  | c
deriving DecidableEq

/-- Construction failure channels from the error taxonomy: the two
constructor exceptions, and the check_error print-and-exit path. -/
inductive StreamError
  | invalidDevice
  | insufficientMemory
  | deviceOperationFailed
deriving DecidableEq

/-- Modulus of size_t arithmetic. -/
def SIZET_MOD : Nat := 2 ^ 64

/-- Device properties the constructor reads (hipDeviceProp_t fields used). -/
structure DeviceProps where
  totalGlobalMem : Nat
  multiProcessorCount : Nat

/-- Result of a successful construction: the allocated buffers in
allocation order, and dot_num_blocks. -/
structure ConstructOk where
  allocated : List Buf
  dot_num_blocks : Nat
deriving DecidableEq

/-- HIPStream::HIPStream(ARRAY_SIZE, device_index) for element size
elemSize = sizeof(T), on a runtime reporting count devices with properties
props.  An error result carries the list of buffers already allocated when
the constructor gave up. -/
def construct (count : Int) (props : DeviceProps) (elemSize : Nat)
    (ARRAY_SIZE : Nat) (device_index : Int) :
    Except (StreamError × List Buf) ConstructOk :=
  if count ≤ device_index then
    Except.error (StreamError.invalidDevice, [])
  else if device_index < 0 then
    Except.error (StreamError.deviceOperationFailed, [])
  else if props.totalGlobalMem
      < (3 * (elemSize * ARRAY_SIZE % SIZET_MOD)) % SIZET_MOD then
    Except.error (StreamError.insufficientMemory, [Buf.sums])
  else
    Except.ok ⟨[Buf.sums, Buf.a, Buf.b, Buf.c],
      props.multiProcessorCount * 4⟩

/-! ## Dot reduction control structure (for the barrier analysis)

The reduction loop of dot_kernel is, per thread:

  for (offset = blockDim.x / 2; offset > 0; offset /= 2) {
    __syncthreads();
    if (local_i < offset) { tb_sum[local_i] += tb_sum[local_i + offset]; }
  }

The offsets the loop visits and the per-thread event trace (an
unconditional barrier followed by a conditional add) are transcribed
below. -/

/-- Offsets visited by the reduction loop, from a starting offset. -/
def offsetList : Nat → Nat → List Nat
  | 0, _ => []
  | fuel + 1, offset =>
    if 0 < offset then offset :: offsetList fuel (offset / 2) else []

/-- The offsets of the dot_kernel reduction: start at blockDim.x / 2. -/
def dotOffsets : List Nat := offsetList TBSIZE (TBSIZE / 2)

/-- Events one thread of the reduction loop issues. -/
inductive Ev
  | barrier
  | add (dst src : Nat)
deriving DecidableEq

/-- Event trace of the thread with local index local_i: per visited offset,
one unconditional barrier, then an add only when local_i < offset. -/
def threadTrace (local_i : Nat) : List Ev :=
  dotOffsets.flatMap (fun offset =>
    Ev.barrier :: (if local_i < offset then [Ev.add local_i (local_i + offset)] else []))

/-- Barrier recognizer. -/
def isBarrier : Ev → Bool
  | Ev.barrier => true
  | Ev.add _ _ => false

/-! ## Characterization of the grid-stride machinery -/

theorem upd_same {α : Type} (x : Nat → α) (i : Nat) (v : α) : upd x i v i = v := by
  simp [upd]

theorem upd_other {α : Type} (x : Nat → α) (i : Nat) (v : α) {j : Nat}
    (h : j ≠ i) : upd x i v j = x j := by
  simp [upd, h]

/-- Shifting the start of a strided index set by one stride preserves
membership for indices other than the old start. -/
theorem stride_cond_shift {i total j : Nat} (ht : 0 < total) (hne : j ≠ i) :
    (i + total ≤ j ∧ (j - (i + total)) % total = 0)
      ↔ (i ≤ j ∧ (j - i) % total = 0) := by
  constructor
  · rintro ⟨h1, h2⟩
    refine ⟨by omega, ?_⟩
    have hj : j - i = (j - (i + total)) + total := by omega
    rw [hj, Nat.add_mod_right, h2]
  · rintro ⟨h1, h2⟩
    have hlt : i < j := lt_of_le_of_ne h1 (Ne.symm hne)
    have hdvd : total ∣ (j - i) := Nat.dvd_of_mod_eq_zero h2
    have hle : total ≤ j - i := Nat.le_of_dvd (by omega) hdvd
    refine ⟨by omega, ?_⟩
    have h3 : (j - (i + total)) + total = j - i := by omega
    calc (j - (i + total)) % total
        = ((j - (i + total)) + total) % total := (Nat.add_mod_right _ _).symm
      _ = (j - i) % total := by rw [h3]
      _ = 0 := h2

/-- A strided index set started at g < total is exactly the residue class of
g modulo total. -/
theorem stride_cond_mod {t total j : Nat} (h : t < total) :
    (t ≤ j ∧ (j - t) % total = 0) ↔ j % total = t := by
  constructor
  · rintro ⟨h1, h2⟩
    obtain ⟨k, hk⟩ := Nat.dvd_of_mod_eq_zero h2
    have hj : j = t + total * k := by omega
    rw [hj, Nat.add_mul_mod_self_left]
    exact Nat.mod_eq_of_lt h
  · intro h2
    have hd := Nat.div_add_mod j total
    refine ⟨by omega, ?_⟩
    have hj : j - t = total * (j / total) := by omega
    rw [hj, Nat.mul_mod_right]

/-- One worker's loop writes G j (x j) exactly at its strided indices below
n, and leaves every other index unchanged. -/
theorem gridStrideLoop_eq {α : Type} (G : Nat → α → α) (n total : Nat)
    (ht : 0 < total) :
    ∀ (fuel i : Nat), n ≤ i + fuel → ∀ (x : Nat → α),
      gridStrideLoop G n total fuel i x
        = fun j => if i ≤ j ∧ j < n ∧ (j - i) % total = 0 then G j (x j) else x j := by
  intro fuel
  induction fuel with
  | zero =>
    intro i hfi x
    funext j
    have hcond : ¬ (i ≤ j ∧ j < n ∧ (j - i) % total = 0) := by
      rintro ⟨h1, h2, _⟩; omega
    simp only [gridStrideLoop, hcond, if_false]
  | succ fuel ih =>
    intro i hfi x
    by_cases hin : i < n
    · simp only [gridStrideLoop, if_pos hin]
      rw [ih (i + total) (by omega) (upd x i (G i (x i)))]
      funext j
      by_cases hji : j = i
      · subst hji
        have hc1 : ¬ (j + total ≤ j ∧ j < n ∧ (j - (j + total)) % total = 0) := by
          rintro ⟨h1, _, _⟩; omega
        have hc2 : j ≤ j ∧ j < n ∧ (j - j) % total = 0 := by
          refine ⟨le_rfl, hin, ?_⟩; simp
        rw [if_neg hc1, upd_same, if_pos hc2]
      · have hupd : upd x i (G i (x i)) j = x j := upd_other x i _ hji
        have hiff : (i + total ≤ j ∧ j < n ∧ (j - (i + total)) % total = 0)
            ↔ (i ≤ j ∧ j < n ∧ (j - i) % total = 0) := by
          constructor
          · rintro ⟨h1, h2, h3⟩
            obtain ⟨h4, h5⟩ := (stride_cond_shift ht hji).1 ⟨h1, h3⟩
            exact ⟨h4, h2, h5⟩
          · rintro ⟨h1, h2, h3⟩
            obtain ⟨h4, h5⟩ := (stride_cond_shift ht hji).2 ⟨h1, h3⟩
            exact ⟨h4, h2, h5⟩
        simp only [hupd, hiff]
    · have hge : n ≤ i := by omega
      funext j
      have hcond : ¬ (i ≤ j ∧ j < n ∧ (j - i) % total = 0) := by
        rintro ⟨h1, h2, _⟩; omega
      simp only [gridStrideLoop, if_neg hin, hcond, if_false]

/-- Running threads 0, ..., t-1 rewrites exactly the indices below n whose
residue modulo total is below t. -/
theorem launchAux_eq {α : Type} (G : Nat → α → α) (n total : Nat)
    (ht : 0 < total) :
    ∀ (t : Nat), t ≤ total → ∀ (x : Nat → α),
      launchAux G n total t x
        = fun j => if j < n ∧ j % total < t then G j (x j) else x j := by
  intro t
  induction t with
  | zero =>
    intro _ x
    funext j
    simp [launchAux]
  | succ t ih =>
    intro htt x
    have htlt : t < total := by omega
    simp only [launchAux]
    rw [ih (by omega) x, gridStrideLoop_eq G n total ht n t (by omega)]
    funext j
    by_cases hjn : j < n
    · by_cases hm : j % total = t
      · have hA : t ≤ j ∧ j < n ∧ (j - t) % total = 0 := by
          obtain ⟨h1, h3⟩ := (stride_cond_mod htlt).2 hm
          exact ⟨h1, hjn, h3⟩
        have hB : ¬ (j < n ∧ j % total < t) := by
          rintro ⟨_, h⟩; rw [hm] at h; exact lt_irrefl t h
        have hC : j < n ∧ j % total < t + 1 :=
          ⟨hjn, by rw [hm]; exact Nat.lt_succ_self t⟩
        rw [if_pos hA, if_neg hB, if_pos hC]
      · have hA : ¬ (t ≤ j ∧ j < n ∧ (j - t) % total = 0) := by
          rintro ⟨h1, _, h3⟩; exact hm ((stride_cond_mod htlt).1 ⟨h1, h3⟩)
        rw [if_neg hA]
        by_cases hmt : j % total < t
        · rw [if_pos ⟨hjn, hmt⟩, if_pos ⟨hjn, Nat.lt_succ_of_lt hmt⟩]
        · have hD : ¬ (j < n ∧ j % total < t + 1) := by
            rintro ⟨_, h⟩
            exact hm (Nat.le_antisymm (Nat.lt_succ_iff.1 h) (Nat.le_of_not_lt hmt))
          rw [if_neg (fun hc => hmt hc.2), if_neg hD]
    · have hA : ¬ (t ≤ j ∧ j < n ∧ (j - t) % total = 0) := by
        rintro ⟨_, h2, _⟩; exact hjn h2
      rw [if_neg hA, if_neg (fun hc => hjn hc.1), if_neg (fun hc => hjn hc.1)]

/-- A full launch writes G j (x j) at every index below n and leaves the
rest of the buffer unchanged. -/
theorem launch_eq {α : Type} (G : Nat → α → α) (n total : Nat) (ht : 0 < total)
    (x : Nat → α) :
    launch G n total x = fun j => if j < n then G j (x j) else x j := by
  unfold launch
  rw [launchAux_eq G n total ht total le_rfl]
  funext j
  have hm : j % total < total := Nat.mod_lt j ht
  by_cases hj : j < n <;> simp [hj, hm]

/-- The elementwise grid always has at least one worker when the array is
nonempty. -/
theorem gridWorkers_pos {n : Nat} (hn : 1 ≤ n) : 0 < gridWorkers n := by
  simp only [gridWorkers, ceil_div, TBSIZE]
  omega

/-! ## Dot product correctness -/

/-- One thread's accumulation equals its start value plus the sum of f over
its strided index set below n. -/
theorem threadAccum_eq {α : Type} [Semiring α] (f : Nat → α) (n total : Nat)
    (ht : 0 < total) :
    ∀ (fuel i : Nat), n ≤ i + fuel → ∀ (acc : α),
      threadAccum f n total fuel i acc
        = acc + ∑ j ∈ (Finset.range n).filter
            (fun j => i ≤ j ∧ (j - i) % total = 0), f j := by
  intro fuel
  induction fuel with
  | zero =>
    intro i hfi acc
    have hempty : (Finset.range n).filter (fun j => i ≤ j ∧ (j - i) % total = 0)
        = ∅ := by
      apply Finset.filter_false_of_mem
      intro j hj
      rintro ⟨h1, _⟩
      exact absurd (Finset.mem_range.1 hj) (by omega)
    simp [threadAccum, hempty]
  | succ fuel ih =>
    intro i hfi acc
    by_cases hin : i < n
    · simp only [threadAccum, if_pos hin]
      rw [ih (i + total) (by omega) (acc + f i)]
      have hsplit : (Finset.range n).filter (fun j => i ≤ j ∧ (j - i) % total = 0)
          = insert i ((Finset.range n).filter
              (fun j => i + total ≤ j ∧ (j - (i + total)) % total = 0)) := by
        ext j
        simp only [Finset.mem_filter, Finset.mem_insert, Finset.mem_range]
        constructor
        · rintro ⟨hjn, h1, h2⟩
          by_cases hji : j = i
          · exact Or.inl hji
          · exact Or.inr ⟨hjn, (stride_cond_shift ht hji).2 ⟨h1, h2⟩⟩
        · rintro (rfl | ⟨hjn, h⟩)
          · exact ⟨hin, le_rfl, by simp⟩
          · have hji : j ≠ i := by omega
            obtain ⟨h1, h2⟩ := (stride_cond_shift ht hji).1 h
            exact ⟨hjn, h1, h2⟩
      have hnotmem : i ∉ (Finset.range n).filter
          (fun j => i + total ≤ j ∧ (j - (i + total)) % total = 0) := by
        simp only [Finset.mem_filter, Finset.mem_range]
        rintro ⟨_, h1, _⟩
        omega
      rw [hsplit, Finset.sum_insert hnotmem, add_assoc]
    · have hempty : (Finset.range n).filter (fun j => i ≤ j ∧ (j - i) % total = 0)
          = ∅ := by
        apply Finset.filter_false_of_mem
        intro j hj
        rintro ⟨h1, _⟩
        exact absurd (Finset.mem_range.1 hj) (by omega)
      simp [threadAccum, if_neg hin, hempty]

/-- For a thread whose start index g is its global id (g < total), the
strided index set is the residue class of g. -/
theorem threadAccum_mod {α : Type} [Semiring α] (f : Nat → α) (n total g : Nat)
    (ht : 0 < total) (hg : g < total) :
    threadAccum f n total n g 0
      = ∑ j ∈ (Finset.range n).filter (fun j => j % total = g), f j := by
  rw [threadAccum_eq f n total ht n g (by omega) 0, zero_add]
  congr 1
  apply Finset.filter_congr
  intro j _
  exact stride_cond_mod hg

/-- Summing all workers' strided accumulations yields the sum over the whole
index range: the strided index sets partition the range. -/
theorem sum_threadAccum {α : Type} [Semiring α] (f : Nat → α) (n total : Nat)
    (ht : 0 < total) :
    ∑ g ∈ Finset.range total, threadAccum f n total n g 0
      = ∑ j ∈ Finset.range n, f j := by
  rw [Finset.sum_congr rfl
      (fun g hg => threadAccum_mod f n total g ht (Finset.mem_range.1 hg))]
  exact Finset.sum_fiberwise_of_maps_to
    (fun j _ => Finset.mem_range.2 (Nat.mod_lt j ht)) f

/-- The reduction loop does nothing once the offset is zero. -/
theorem treeReduce_offset_zero {α : Type} [Semiring α] (fuel : Nat)
    (t : Nat → α) : treeReduce fuel 0 t = t := by
  cases fuel <;> simp [treeReduce]

/-- Tree reduction from offset 2^k collapses slots 0..2^(k+1)-1 into slot 0:
each halving step folds the upper half of the live window onto the lower
half, and the power-of-two offset reaches exactly zero. -/
theorem treeReduce_pow2 {α : Type} [Semiring α] :
    ∀ (k fuel : Nat), k + 1 ≤ fuel → ∀ (t : Nat → α),
      treeReduce fuel (2 ^ k) t 0 = ∑ i ∈ Finset.range (2 ^ (k + 1)), t i := by
  intro k
  induction k with
  | zero =>
    intro fuel hf t
    match fuel, hf with
    | fuel + 1, _ =>
      simp only [treeReduce, pow_zero, if_pos Nat.one_pos]
      have h0 : (1 : Nat) / 2 = 0 := by norm_num
      rw [h0, treeReduce_offset_zero]
      simp [reduceStep, Finset.sum_range_succ]
  | succ k ih =>
    intro fuel hf t
    match fuel, hf with
    | fuel + 1, hf =>
      simp only [treeReduce, if_pos (Nat.pos_pow_of_pos (k + 1) (by norm_num) :
        0 < (2:Nat) ^ (k + 1))]
      have h2 : 2 ^ (k + 1) / 2 = 2 ^ k := by
        rw [pow_succ]
        exact Nat.mul_div_cancel _ (by norm_num)
      rw [h2, ih fuel (by omega)]
      have hstep : ∀ i ∈ Finset.range (2 ^ (k + 1)),
          reduceStep t (2 ^ (k + 1)) i = t i + t (i + 2 ^ (k + 1)) := by
        intro i hi
        simp [reduceStep, Finset.mem_range.1 hi]
      rw [Finset.sum_congr rfl hstep, Finset.sum_add_distrib]
      have hsplit : (2 : Nat) ^ (k + 1 + 1) = 2 ^ (k + 1) + 2 ^ (k + 1) := by
        rw [pow_succ]; omega
      rw [hsplit, Finset.sum_range_add]
      congr 1
      apply Finset.sum_congr rfl
      intro i _
      rw [Nat.add_comm]

/-- The value dot_kernel leaves in sum[blockIdx] is the sum of all TBSIZE
accumulator slots of the block. -/
theorem dotBlockResult_eq {α : Type} [Semiring α] (a b : Nat → α)
    (n B blk : Nat) :
    dotBlockResult a b n B blk
      = ∑ li ∈ Finset.range TBSIZE, blockSlots a b n B blk li := by
  unfold dotBlockResult
  have h9 : TBSIZE / 2 = 2 ^ 9 := by norm_num [TBSIZE]
  rw [h9, treeReduce_pow2 9 (2 ^ 9) (by norm_num)]
  norm_num [TBSIZE]

/-- The host loop sums the per-block partial results. -/
theorem dotHostSum_eq {α : Type} [Semiring α] (p : Nat → α) :
    ∀ m, dotHostSum p m = ∑ i ∈ Finset.range m, p i := by
  intro m
  induction m with
  | zero => simp [dotHostSum]
  | succ m ih => simp [dotHostSum, Finset.sum_range_succ, ih]

/-- Reindexing the double sum over (block, local thread) as a sum over
global thread ids. -/
theorem sum_blocks_eq {α : Type} [Semiring α] (F : Nat → α) (m : Nat) :
    ∀ B, ∑ blk ∈ Finset.range B, ∑ li ∈ Finset.range m, F (m * blk + li)
        = ∑ g ∈ Finset.range (B * m), F g := by
  intro B
  induction B with
  | zero => simp
  | succ B ih =>
    rw [Finset.sum_range_succ, ih, Nat.succ_mul, Finset.sum_range_add]
    congr 1
    apply Finset.sum_congr rfl
    intro i _
    rw [Nat.mul_comm]

/-- Exact-arithmetic correctness of HIPStream::dot: the launched reduction
plus the host loop compute the inner product of a and b over the first n
indices, for any positive number of reduction blocks. -/
theorem dot_correct {α : Type} [Semiring α] (n B : Nat) (hB : 0 < B)
    (a b : Nat → α) :
    stream_dot n B a b = ∑ i ∈ Finset.range n, a i * b i := by
  unfold stream_dot
  rw [dotHostSum_eq]
  rw [Finset.sum_congr rfl (fun blk _ => dotBlockResult_eq a b n B blk)]
  unfold blockSlots
  have htot : 0 < TBSIZE * B := by
    have h1 : (0:Nat) < TBSIZE := by norm_num [TBSIZE]
    exact Nat.mul_pos h1 hB
  have h2 : ∑ g ∈ Finset.range (B * TBSIZE),
      threadAccum (fun i => a i * b i) n (TBSIZE * B) n g 0
      = ∑ i ∈ Finset.range n, a i * b i := by
    rw [Nat.mul_comm B TBSIZE]
    exact sum_threadAccum _ n (TBSIZE * B) htot
  exact (sum_blocks_eq
    (fun g => threadAccum (fun i => a i * b i) n (TBSIZE * B) n g 0)
    TBSIZE B).trans h2

/-! ## Pointwise characterization of the elementwise operations -/

theorem copy_kernel_eq {α : Type} (a : Nat → α) (n total : Nat)
    (ht : 0 < total) (c : Nat → α) (i : Nat) :
    copy_kernel a n total c i = if i < n then a i else c i :=
  congrFun (launch_eq _ n total ht c) i

theorem mul_kernel_eq {α : Type} [Semiring α] (scalar : α) (c : Nat → α)
    (n total : Nat) (ht : 0 < total) (b : Nat → α) (i : Nat) :
    mul_kernel scalar c n total b i = if i < n then scalar * c i else b i :=
  congrFun (launch_eq _ n total ht b) i

theorem add_kernel_eq {α : Type} [Semiring α] (a b : Nat → α) (n total : Nat)
    (ht : 0 < total) (c : Nat → α) (i : Nat) :
    add_kernel a b n total c i = if i < n then a i + b i else c i :=
  congrFun (launch_eq _ n total ht c) i

theorem triad_kernel_eq {α : Type} [Semiring α] (scalar : α) (b c : Nat → α)
    (n total : Nat) (ht : 0 < total) (a : Nat → α) (i : Nat) :
    triad_kernel scalar b c n total a i
      = if i < n then b i + scalar * c i else a i :=
  congrFun (launch_eq _ n total ht a) i

theorem nstream_kernel_eq {α : Type} [Semiring α] (scalar : α) (b c : Nat → α)
    (n total : Nat) (ht : 0 < total) (a : Nat → α) (i : Nat) :
    nstream_kernel scalar b c n total a i
      = if i < n then a i + (b i + scalar * c i) else a i :=
  congrFun (launch_eq _ n total ht a) i

theorem init_kernel_eq {α : Type} (a0 b0 c0 : α) (n total : Nat)
    (ht : 0 < total) (abc : Nat → α × α × α) (i : Nat) :
    init_kernel a0 b0 c0 n total abc i
      = if i < n then (a0, b0, c0) else abc i :=
  congrFun (launch_eq _ n total ht abc) i

/-- Per-index contents of the three buffers after init_arrays. -/
theorem stream_init_eq {α : Type} (n : Nat) (hn : 1 ≤ n) (a0 b0 c0 : α)
    (s : StreamState α) (i : Nat) :
    (stream_init n a0 b0 c0 s).a i = (if i < n then a0 else s.a i)
    ∧ (stream_init n a0 b0 c0 s).b i = (if i < n then b0 else s.b i)
    ∧ (stream_init n a0 b0 c0 s).c i = (if i < n then c0 else s.c i) := by
  have h := init_kernel_eq a0 b0 c0 n (gridWorkers n) (gridWorkers_pos hn)
    (fun i => (s.a i, s.b i, s.c i)) i
  refine ⟨?_, ?_, ?_⟩
  · show (init_kernel a0 b0 c0 n (gridWorkers n)
        (fun i => (s.a i, s.b i, s.c i)) i).1 = _
    rw [h]
    by_cases hi : i < n <;> simp [hi]
  · show (init_kernel a0 b0 c0 n (gridWorkers n)
        (fun i => (s.a i, s.b i, s.c i)) i).2.1 = _
    rw [h]
    by_cases hi : i < n <;> simp [hi]
  · show (init_kernel a0 b0 c0 n (gridWorkers n)
        (fun i => (s.a i, s.b i, s.c i)) i).2.2 = _
    rw [h]
    by_cases hi : i < n <;> simp [hi]

/-- The MANAGED / PAGEFAULT readback loop copies exactly the first m device
elements over the host buffer and touches nothing else. -/
theorem read_vec_managed_eq {α : Type} (d : Nat → α) :
    ∀ (m : Nat) (host : Nat → α),
      read_vec_managed d m host = fun i => if i < m then d i else host i := by
  intro m
  induction m with
  | zero =>
    intro host
    funext i
    simp [read_vec_managed]
  | succ m ih =>
    intro host
    funext i
    simp only [read_vec_managed, ih, upd]
    by_cases hi : i = m
    · subst hi
      simp
    · rw [if_neg hi]
      by_cases him : i < m
      · rw [if_pos him, if_pos (by omega)]
      · rw [if_neg him, if_neg (by omega)]

/-- Every offset chunk of a reduction thread's trace contributes exactly one
barrier, whether or not the conditional add fires. -/
theorem countP_barrier_flatMap (local_i : Nat) :
    ∀ l : List Nat,
      (l.flatMap (fun offset => Ev.barrier ::
        (if local_i < offset then [Ev.add local_i (local_i + offset)] else []))).countP
          (fun e => isBarrier e) = l.length := by
  intro l
  induction l with
  | nil => rfl
  | cons o l ih =>
    simp only [List.flatMap_cons, List.countP_append, List.countP_cons, ih]
    by_cases ho : local_i < o
    · simp [ho, isBarrier, List.countP_cons]
      omega
    · simp [ho, isBarrier]
      omega

/-! ## Claims -/

/-- C1: for every array length >= 1 (including lengths not divisible by the
group size 1024 or by dot_num_blocks, and lengths smaller than one group)
and every positive dot_num_blocks, Dot() — per-group strided accumulation,
tree reduction into slot 0, the partial-sum buffer write, and the
sequential host sum — returns the inner product of A and B over exact
arithmetic. -/
theorem dot_returns_inner_product {α : Type} [Semiring α] (n B : Nat)
    (hn : 1 ≤ n) (hB : 1 ≤ B) (a b : Nat → α) :
    stream_dot n B a b = ∑ i ∈ Finset.range n, a i * b i :=
  dot_correct n B hB a b

/-- Witness for C1: length 5 (smaller than one group, divisible by neither
1024 nor the block count 2), over the integers. -/
theorem dot_returns_inner_product_witness :
    1 ≤ 5 ∧ 1 ≤ 2 ∧
      stream_dot 5 2 (fun i => (i : Int) + 1) (fun _ => (2 : Int)) = 30 :=
  ⟨by decide, by decide,
    (dot_returns_inner_product 5 2 (by decide) (by decide)
      (fun i => (i : Int) + 1) (fun _ => (2 : Int))).trans (by decide)⟩

/-- C2: for every array length >= 1, including lengths not divisible by the
group size and lengths smaller than one group, InitArrays(a0, b0, c0)
followed by ReadArrays() yields host sequences every element of which
equals a0, b0, c0 respectively — under the explicit-transfer readback with
matching-length vectors and under the managed/pagefault readback loop. -/
theorem init_then_read_constant {α : Type} (n : Nat) (hn : 1 ≤ n)
    (a0 b0 c0 : α) (s : StreamState α) (hostA hostB hostC : Nat → α) :
    (∀ i, i < n → read_vec_default (stream_init n a0 b0 c0 s).a n hostA i = a0)
    ∧ (∀ i, i < n → read_vec_default (stream_init n a0 b0 c0 s).b n hostB i = b0)
    ∧ (∀ i, i < n → read_vec_default (stream_init n a0 b0 c0 s).c n hostC i = c0)
    ∧ (∀ i, i < n → read_vec_managed (stream_init n a0 b0 c0 s).a n hostA i = a0)
    ∧ (∀ i, i < n → read_vec_managed (stream_init n a0 b0 c0 s).b n hostB i = b0)
    ∧ (∀ i, i < n → read_vec_managed (stream_init n a0 b0 c0 s).c n hostC i = c0) := by
  have hinit := fun i => stream_init_eq n hn a0 b0 c0 s i
  refine ⟨?_, ?_, ?_, ?_, ?_, ?_⟩ <;> intro i hi
  · simp [read_vec_default, hi, (hinit i).1]
  · simp [read_vec_default, hi, (hinit i).2.1]
  · simp [read_vec_default, hi, (hinit i).2.2]
  · rw [read_vec_managed_eq]
    simp [hi, (hinit i).1]
  · rw [read_vec_managed_eq]
    simp [hi, (hinit i).2.1]
  · rw [read_vec_managed_eq]
    simp [hi, (hinit i).2.2]

/-- Witness for C2 at length 3 with distinct fill values, over the
integers. -/
theorem init_then_read_constant_witness :
    1 ≤ 3 ∧ 1 < 3 ∧
      read_vec_default
        (stream_init 3 (7 : Int) 8 9 ⟨fun _ => 0, fun _ => 0, fun _ => 0⟩).b
        3 (fun _ => 0) 1 = 8 :=
  ⟨by decide, by decide,
    (init_then_read_constant 3 (by decide) (7 : Int) 8 9
      ⟨fun _ => 0, fun _ => 0, fun _ => 0⟩
      (fun _ => 0) (fun _ => 0) (fun _ => 0)).2.1 1 (by decide)⟩

/-- C3: for every array length >= 1 and every pre-call buffer state, after
Nstream() every element below the length satisfies
A[i] = A_old[i] + B[i] + scalar * C[i], and B and C are unchanged at every
index. -/
theorem nstream_updates_a {α : Type} [Semiring α] (scalar : α) (n : Nat)
    (hn : 1 ≤ n) (s : StreamState α) :
    (∀ i, i < n →
      (stream_nstream scalar n s).a i = s.a i + s.b i + scalar * s.c i)
    ∧ (∀ i, (stream_nstream scalar n s).b i = s.b i)
    ∧ (∀ i, (stream_nstream scalar n s).c i = s.c i) := by
  refine ⟨?_, fun _ => rfl, fun _ => rfl⟩
  intro i hi
  show nstream_kernel scalar s.b s.c n (gridWorkers n) s.a i = _
  rw [nstream_kernel_eq scalar s.b s.c n (gridWorkers n) (gridWorkers_pos hn)
    s.a i, if_pos hi, ← add_assoc]

/-- Witness for C3 at length 3 with a non-constant initial A, over the
integers. -/
theorem nstream_updates_a_witness :
    1 ≤ 3 ∧ 2 < 3 ∧
      (stream_nstream (3 : Int) 3
        ⟨fun _ => 4, fun _ => 2, fun _ => 5⟩).a 2 = 4 + 2 + 3 * 5 :=
  ⟨by decide, by decide,
    (nstream_updates_a (3 : Int) 3 (by decide)
      ⟨fun _ => 4, fun _ => 2, fun _ => 5⟩).1 2 (by decide)⟩

/-- C4: after Triad() every element below the length satisfies
A[i] = B[i] + scalar * C[i]; and in the spec's example (length 10,000,000,
a0 = 1, b0 = 2, c0 = 0, scalar = 3) init followed by triad gives A[i] = 2
everywhere and a subsequent Dot() returns exactly 40,000,000 over exact
arithmetic. -/
theorem triad_formula_and_example :
    (∀ (α : Type) [inst : Semiring α] (scalar : α) (n : Nat), 1 ≤ n →
      ∀ (s : StreamState α) (i : Nat), i < n →
        (stream_triad scalar n s).a i = s.b i + scalar * s.c i)
    ∧ (∀ (s : StreamState Int) (B : Nat), 1 ≤ B →
        (∀ i, i < 10000000 →
          (stream_triad 3 10000000 (stream_init 10000000 1 2 0 s)).a i = 2)
        ∧ stream_dot 10000000 B
            (stream_triad 3 10000000 (stream_init 10000000 1 2 0 s)).a
            (stream_triad 3 10000000 (stream_init 10000000 1 2 0 s)).b
          = 40000000) := by
  constructor
  · intro α inst scalar n hn s i hi
    show triad_kernel scalar s.b s.c n (gridWorkers n) s.a i = _
    rw [triad_kernel_eq scalar s.b s.c n (gridWorkers n) (gridWorkers_pos hn)
      s.a i, if_pos hi]
  · intro s B hB
    have hn : (1 : Nat) ≤ 10000000 := by norm_num
    have hinit := fun i => stream_init_eq 10000000 hn (1 : Int) 2 0 s i
    have hA : ∀ i, i < 10000000 →
        (stream_triad (3 : Int) 10000000
          (stream_init 10000000 1 2 0 s)).a i = 2 := by
      intro i hi
      have htr : (stream_triad (3 : Int) 10000000
          (stream_init 10000000 1 2 0 s)).a i
          = (stream_init 10000000 (1 : Int) 2 0 s).b i
            + 3 * (stream_init 10000000 (1 : Int) 2 0 s).c i := by
        show triad_kernel (3 : Int) _ _ 10000000 (gridWorkers 10000000) _ i = _
        rw [triad_kernel_eq _ _ _ _ _ (gridWorkers_pos hn) _ i, if_pos hi]
      rw [htr, (hinit i).2.1, (hinit i).2.2, if_pos hi, if_pos hi]
      norm_num
    refine ⟨hA, ?_⟩
    have hb : (stream_triad (3 : Int) 10000000
        (stream_init 10000000 1 2 0 s)).b
        = (stream_init 10000000 (1 : Int) 2 0 s).b := rfl
    rw [dot_correct 10000000 B hB]
    have hcong : ∀ i ∈ Finset.range 10000000,
        (stream_triad (3 : Int) 10000000 (stream_init 10000000 1 2 0 s)).a i
          * (stream_triad (3 : Int) 10000000 (stream_init 10000000 1 2 0 s)).b i
        = 4 := by
      intro i hi
      have hi2 := Finset.mem_range.1 hi
      rw [hA i hi2, hb, (hinit i).2.1, if_pos hi2]
      norm_num
    rw [Finset.sum_congr rfl hcong, Finset.sum_const, Finset.card_range,
      nsmul_eq_mul]
    norm_num

/-- Witness for C4: the example instance with one reduction block and the
all-zero initial state. -/
theorem triad_formula_and_example_witness :
    1 ≤ 1 ∧
      stream_dot 10000000 1
        (stream_triad 3 10000000 (stream_init 10000000 1 2 0
          ⟨fun _ => (0 : Int), fun _ => 0, fun _ => 0⟩)).a
        (stream_triad 3 10000000 (stream_init 10000000 1 2 0
          ⟨fun _ => (0 : Int), fun _ => 0, fun _ => 0⟩)).b
      = 40000000 :=
  ⟨by decide,
    (triad_formula_and_example.2
      ⟨fun _ => 0, fun _ => 0, fun _ => 0⟩ 1 (by decide)).2⟩

/-- C5: every kernel-suite operation writes only the array in its Writes
column and leaves the others unchanged at every index: Copy writes only C,
Mul writes only B, Add writes only C, Triad and Nstream write only A. -/
theorem kernel_frame_effects {α : Type} [Semiring α] (scalar : α) (n : Nat)
    (s : StreamState α) (i : Nat) :
    ((stream_copy n s).a i = s.a i ∧ (stream_copy n s).b i = s.b i)
    ∧ ((stream_mul scalar n s).a i = s.a i
        ∧ (stream_mul scalar n s).c i = s.c i)
    ∧ ((stream_add n s).a i = s.a i ∧ (stream_add n s).b i = s.b i)
    ∧ ((stream_triad scalar n s).b i = s.b i
        ∧ (stream_triad scalar n s).c i = s.c i)
    ∧ ((stream_nstream scalar n s).b i = s.b i
        ∧ (stream_nstream scalar n s).c i = s.c i) :=
  ⟨⟨rfl, rfl⟩, ⟨rfl, rfl⟩, ⟨rfl, rfl⟩, ⟨rfl, rfl⟩, ⟨rfl, rfl⟩⟩

/-- C6 (amended): when construction fails with InsufficientMemory, the
device arrays A, B, C have not been allocated, but the Partial Sum Buffer
(hipHostMalloc precedes the memory check in the constructor) has already
been allocated and is left allocated: the allocation set at failure is
exactly the Partial Sum Buffer. -/
theorem insufficient_memory_allocation_state (count : Int)
    (props : DeviceProps) (elemSize ARRAY_SIZE : Nat) (idx : Int)
    (l : List Buf)
    (h : construct count props elemSize ARRAY_SIZE idx
      = Except.error (StreamError.insufficientMemory, l)) :
    l = [Buf.sums] := by
  unfold construct at h
  split_ifs at h <;> simp_all

/-- Witness for the amended C6 at a concrete insufficient-memory input. -/
theorem insufficient_memory_allocation_state_witness :
    construct 1 ⟨100, 2⟩ 8 100 0
      = Except.error (StreamError.insufficientMemory, [Buf.sums])
    ∧ [Buf.sums] = [Buf.sums] :=
  ⟨rfl, insufficient_memory_allocation_state 1 ⟨100, 2⟩ 8 100 0 [Buf.sums] rfl⟩

/-- Counterexample to C6 as stated: with one device holding 100 bytes,
element size 8 and length 100, construction fails with InsufficientMemory
yet the failed construction leaves the Partial Sum Buffer allocated — the
allocation list at failure is [sums], not empty, because hipHostMalloc runs
before the memory check. -/
theorem insufficient_memory_counterexample :
    construct 1 ⟨100, 2⟩ 8 100 0
      = Except.error (StreamError.insufficientMemory, [Buf.sums])
    ∧ ([Buf.sums] : List Buf) ≠ [] :=
  ⟨rfl, by decide⟩

/-- C7 (amended): construction with device_index >= count fails with
InvalidDevice, and construction with idx < count — including negative
indices — never raises InvalidDevice: the range check tests only the upper
bound, so a negative index falls through to the device runtime and can only
surface on the check_error channel. -/
theorem invalid_device_range (count : Int) (props : DeviceProps)
    (elemSize ARRAY_SIZE : Nat) (idx : Int) :
    (count ≤ idx →
      construct count props elemSize ARRAY_SIZE idx
        = Except.error (StreamError.invalidDevice, []))
    ∧ (idx < count → ∀ l,
      construct count props elemSize ARRAY_SIZE idx
        ≠ Except.error (StreamError.invalidDevice, l)) := by
  constructor
  · intro h
    unfold construct
    rw [if_pos h]
  · intro h l
    unfold construct
    rw [if_neg (by omega)]
    split_ifs <;> simp

/-- Witness for the amended C7: index 1 of 1 device raises InvalidDevice,
index 0 of 1 device does not. -/
theorem invalid_device_range_witness :
    (1 : Int) ≤ 1 ∧ (0 : Int) < 1 ∧
      construct 1 ⟨100, 2⟩ 8 4 1 = Except.error (StreamError.invalidDevice, [])
    ∧ construct 1 ⟨100, 2⟩ 8 4 0
        ≠ Except.error (StreamError.invalidDevice, []) :=
  ⟨by decide, by decide,
    (invalid_device_range 1 ⟨100, 2⟩ 8 4 1).1 (by decide),
    (invalid_device_range 1 ⟨100, 2⟩ 8 4 0).2 (by decide) []⟩

/-- Counterexample to C7 as stated: device_index = -1 with one enumerated
device is out of the enumerated range, yet construction does not fail with
InvalidDevice — the constructor's only InvalidDevice check is
device_index >= count, so the negative index reaches hipSetDevice and is
surfaced as a device-operation failure (error message plus termination),
a different failure channel than the InvalidDevice exception. -/
theorem invalid_device_negative_counterexample :
    construct 1 ⟨100, 2⟩ 8 4 (-1)
      = Except.error (StreamError.deviceOperationFailed, [])
    ∧ StreamError.deviceOperationFailed ≠ StreamError.invalidDevice :=
  ⟨rfl, by decide⟩

/-- C8 (amended): for an in-range device index, construction raises
InsufficientMemory exactly when the reported device memory is smaller than
3 * length * element_size, provided that product stays below 2^64 so the
size_t computation does not wrap (every realistic size); for lengths whose
byte count wraps modulo 2^64 the check can pass spuriously. -/
theorem memory_check_no_overflow (count : Int) (props : DeviceProps)
    (elemSize ARRAY_SIZE : Nat) (idx : Int)
    (h0 : 0 ≤ idx) (h1 : idx < count)
    (hfit : 3 * (elemSize * ARRAY_SIZE) < SIZET_MOD) :
    (∃ l, construct count props elemSize ARRAY_SIZE idx
        = Except.error (StreamError.insufficientMemory, l))
      ↔ props.totalGlobalMem < 3 * (elemSize * ARRAY_SIZE) := by
  unfold construct
  rw [if_neg (by omega), if_neg (by omega)]
  have hle : elemSize * ARRAY_SIZE ≤ 3 * (elemSize * ARRAY_SIZE) := by omega
  have hm1 : elemSize * ARRAY_SIZE % SIZET_MOD = elemSize * ARRAY_SIZE :=
    Nat.mod_eq_of_lt (lt_of_le_of_lt hle hfit)
  rw [hm1]
  have hm2 : (3 * (elemSize * ARRAY_SIZE)) % SIZET_MOD
      = 3 * (elemSize * ARRAY_SIZE) := Nat.mod_eq_of_lt hfit
  rw [hm2]
  by_cases hc : props.totalGlobalMem < 3 * (elemSize * ARRAY_SIZE)
  · rw [if_pos hc]
    exact ⟨fun _ => hc, fun _ => ⟨[Buf.sums], rfl⟩⟩
  · rw [if_neg hc]
    constructor
    · rintro ⟨l, hl⟩
      exact absurd hl (by simp)
    · intro hx
      exact absurd hx hc

/-- Witness for the amended C8 at a concrete non-overflowing input where
the three buffers do not fit. -/
theorem memory_check_no_overflow_witness :
    (0 : Int) ≤ 0 ∧ (0 : Int) < 1 ∧ 3 * (8 * 100) < SIZET_MOD ∧
      (∃ l, construct 1 ⟨100, 2⟩ 8 100 0
        = Except.error (StreamError.insufficientMemory, l)) :=
  ⟨by decide, by decide, by decide,
    (memory_check_no_overflow 1 ⟨100, 2⟩ 8 100 0 (by decide) (by decide)
      (by decide)).mpr (by decide)⟩

/-- Counterexample to C8 as stated: length 2^61 with 8-byte elements makes
the mathematical product 3 * length * element_size equal to 3 * 2^64,
far above the 2^30-byte device memory, yet construction succeeds without
raising InsufficientMemory: the size_t product 8 * 2^61 wraps to 0
modulo 2^64, so the fit check passes. -/
theorem memory_check_overflow_counterexample :
    construct 1 ⟨2 ^ 30, 2⟩ 8 (2 ^ 61) 0
      = Except.ok ⟨[Buf.sums, Buf.a, Buf.b, Buf.c], 8⟩
    ∧ 2 ^ 30 < 3 * (8 * 2 ^ 61) :=
  ⟨rfl, by decide⟩

/-- C9: in dot_kernel's tree reduction the synchronization barrier is
unconditional — every worker's event trace carries exactly one barrier per
halving step, whether or not its guarded add fires, so all workers execute
the same number of barriers and none deadlocks; the offsets start at half
the group size (512), halve exactly through every power of two down to 1
(the next halving yields 0 and ends the loop, skipping no slot); and the
fully reduced slot 0 holds the sum of all TBSIZE slots. -/
theorem dot_reduction_barrier_structure :
    (∀ t, t < TBSIZE →
      (threadTrace t).countP (fun e => isBarrier e) = dotOffsets.length)
    ∧ dotOffsets = [512, 256, 128, 64, 32, 16, 8, 4, 2, 1]
    ∧ (∀ (α : Type) [inst : Semiring α] (t : Nat → α),
        treeReduce (TBSIZE / 2) (TBSIZE / 2) t 0
          = ∑ i ∈ Finset.range TBSIZE, t i) := by
  refine ⟨?_, ?_, ?_⟩
  · intro t _
    exact countP_barrier_flatMap t dotOffsets
  · decide
  · intro α inst t
    have h9 : TBSIZE / 2 = 2 ^ 9 := by norm_num [TBSIZE]
    rw [h9, treeReduce_pow2 9 (2 ^ 9) (by norm_num)]
    norm_num [TBSIZE]

/-- Witness for C9: the last worker of a group, and the reduction of an
all-ones slot array over the integers. -/
theorem dot_reduction_barrier_structure_witness :
    1023 < TBSIZE ∧
      (threadTrace 1023).countP (fun e => isBarrier e) = dotOffsets.length ∧
      treeReduce (TBSIZE / 2) (TBSIZE / 2) (fun _ => (1 : Int)) 0 = 1024 :=
  ⟨by decide, dot_reduction_barrier_structure.1 1023 (by decide),
    (dot_reduction_barrier_structure.2.2 Int (fun _ => 1)).trans
      (by simp [TBSIZE])⟩

/-- C10: the element count ReadArrays materializes depends on the residency
strategy: the DeviceOnly branch overwrites exactly the caller vector's
length of elements (and nothing beyond), the Managed/HostPagefault branch
overwrites exactly array_size elements regardless of the vector's length,
and the two readbacks agree for all device and host contents exactly when
the vector length equals array_size. -/
theorem read_arrays_residency_counts :
    (∀ (α : Type) (d host : Nat → α) (L : Nat),
      (∀ i, i < L → read_vec_default d L host i = d i)
      ∧ (∀ i, L ≤ i → read_vec_default d L host i = host i))
    ∧ (∀ (α : Type) (d host : Nat → α) (S : Nat),
      (∀ i, i < S → read_vec_managed d S host i = d i)
      ∧ (∀ i, S ≤ i → read_vec_managed d S host i = host i))
    ∧ (∀ L S : Nat,
      (∀ (d host : Nat → Int),
        read_vec_default d L host = read_vec_managed d S host)
      ↔ L = S) := by
  refine ⟨?_, ?_, ?_⟩
  · intro α d host L
    constructor
    · intro i hi
      simp [read_vec_default, hi]
    · intro i hi
      simp [read_vec_default, Nat.not_lt.2 hi]
  · intro α d host S
    constructor
    · intro i hi
      rw [read_vec_managed_eq]
      simp [hi]
    · intro i hi
      rw [read_vec_managed_eq]
      simp [Nat.not_lt.2 hi]
  · intro L S
    constructor
    · intro h
      by_contra hne
      have hd := congrFun (h (fun _ => 1) (fun _ => 0)) (min L S)
      rw [read_vec_managed_eq] at hd
      simp only [read_vec_default] at hd
      rcases Nat.lt_or_ge L S with hls | hls
      · have hc1 : ¬ (min L S < L) := by omega
        have hc2 : min L S < S := by omega
        rw [if_neg hc1, if_pos hc2] at hd
        exact absurd hd (by norm_num)
      · have hc1 : min L S < L := by omega
        have hc2 : ¬ (min L S < S) := by omega
        rw [if_pos hc1, if_neg hc2] at hd
        exact absurd hd (by norm_num)
    · rintro rfl
      intro d host
      rw [read_vec_managed_eq]
      rfl

/-- Witness for C10 inside and outside the copied prefix, over the
integers. -/
theorem read_arrays_residency_counts_witness :
    (2 < 3 ∧ read_vec_default (fun _ => (5 : Int)) 3 (fun _ => -1) 2 = 5)
    ∧ (3 ≤ 3 ∧ read_vec_managed (fun _ => (5 : Int)) 3 (fun _ => -1) 3 = -1) :=
  ⟨⟨by decide,
      (read_arrays_residency_counts.1 Int (fun _ => (5 : Int))
        (fun _ => -1) 3).1 2 (by decide)⟩,
   ⟨by decide,
      (read_arrays_residency_counts.2.1 Int (fun _ => (5 : Int))
        (fun _ => -1) 3).2 3 (by decide)⟩⟩

end BabelStream
